import Mathlib

/-!
# Verification of the Svelte PWA Todo application core

Shallow embedding of the Todo store and persistence adapter implemented in
`src/components/TodoList.svelte`, together with proofs of the testable
properties stated in the specification.

The embedding follows the source:

* `Todo` mirrors the `Todo` interface (`id: number`, `text: string`,
  `completed: boolean`).  Ids are produced by `Date.now()` and only ever
  compared for equality, so they are modelled as `Int`.
* `addTodo`, `toggleTodo`, `deleteTodo`, `handleKeydown` are direct
  transcriptions of the component functions; component state
  (`todos`, `newTodoText`) is passed explicitly as `TState`.
* `saveTodos` / `loadTodos` are transcriptions of the persistence functions.
  The single localStorage slot used by the component is modelled as
  `Option String`; `JSON.stringify` / `JSON.parse` (platform builtins, not
  part of the repository) are modelled on the one persisted schema — a JSON
  array of `{id, text, completed}` objects — by the executable encoder
  `stringifyTodos` and parser `parseTodos` below.  A thrown `JSON.parse`
  exception is modelled by the parser returning `none`; the `try/catch` in
  `loadTodos` is the `match` on that option.
-/

/-- The `Todo` record of `TodoList.svelte`:
`interface Todo { id: number; text: string; completed: boolean }`. -/
structure Todo where
  id : Int
  text : String
  completed : Bool
deriving Repr, DecidableEq

/-- Component state of `TodoList.svelte`: the reactive collection `todos`
and the bound input field value `newTodoText`. -/
structure TState where
  todos : List Todo
  newTodoText : String
deriving Repr, DecidableEq

/-- Transcribes `const STORAGE_KEY = 'svelte-pwa-todos'`. -/
def STORAGE_KEY : String := "svelte-pwa-todos"

/-- The WhiteSpace / LineTerminator set of `String.prototype.trim`
(ECMA-262): TAB, LF, VT, FF, CR, SP, NBSP, BOM, and the Unicode
space-separator code points. -/
def jsWhitespace (c : Char) : Bool :=
  c.toNat = 9 ∨ c.toNat = 10 ∨ c.toNat = 11 ∨ c.toNat = 12 ∨ c.toNat = 13 ∨
  c.toNat = 32 ∨ c.toNat = 160 ∨ c.toNat = 0xFEFF ∨ c.toNat = 0x1680 ∨
  (0x2000 ≤ c.toNat ∧ c.toNat ≤ 0x200A) ∨ c.toNat = 0x2028 ∨ c.toNat = 0x2029 ∨
  c.toNat = 0x202F ∨ c.toNat = 0x205F ∨ c.toNat = 0x3000

/-- Models `String.prototype.trim` (a JS builtin): strips leading and trailing
whitespace. -/
def jsTrim (s : String) : String :=
  String.mk (((s.data.dropWhile jsWhitespace).reverse.dropWhile jsWhitespace).reverse)

/-- Transcribes `addTodo` from `TodoList.svelte`.  `Date.now()` is passed in as `now`.
JS truthiness of `newTodoText.trim()` is non-emptiness of the trimmed
string.  Note that the input field is cleared only inside the `if`. -/
def addTodo (now : Int) (st : TState) : TState :=
  if jsTrim st.newTodoText ≠ "" then
    { todos := st.todos ++ [{ id := now, text := jsTrim st.newTodoText, completed := false }],
      newTodoText := "" }
  else
    st

/-- Transcribes `toggleTodo` from `TodoList.svelte`:
`todos.map((todo) => (todo.id === id ? { ...todo, completed: !todo.completed } : todo))`. -/
def toggleTodo (id : Int) (todos : List Todo) : List Todo :=
  todos.map fun todo =>
    if todo.id == id then { todo with completed := !todo.completed } else todo

/-- Transcribes `deleteTodo` from `TodoList.svelte`:
`todos.filter((todo) => todo.id !== id)`. -/
def deleteTodo (id : Int) (todos : List Todo) : List Todo :=
  todos.filter fun todo => todo.id != id

/-- Transcribes `handleKeydown` from `TodoList.svelte`: on the `Enter` key it runs
`addTodo`, otherwise it does nothing. -/
def handleKeydown (key : String) (now : Int) (st : TState) : TState :=
  if key == "Enter" then addTodo now st else st

/-! ## JSON serialization model

`JSON.stringify` / `JSON.parse` are platform builtins.  They are modelled
here on the one schema the application persists (spec §6: a JSON array of
`{id: number, text: string, completed: boolean}` objects): `stringifyTodos`
reproduces `JSON.stringify`'s exact output for such an array (object-literal
key order, string escaping rules, lowercase hex in `\uXXXX` escapes, no
whitespace) and `parseTodos` is a recursive-descent parser for that output
grammar, returning `none` where `JSON.parse` would throw on it. -/

/-- Decimal digits of a natural number, most significant first
(the digits `JSON.stringify` prints for a non-negative integer). -/
def encNat (n : Nat) : List Char :=
  if h : n < 10 then [Char.ofNat (48 + n)]
  else encNat (n / 10) ++ [Char.ofNat (48 + n % 10)]
decreasing_by exact Nat.div_lt_self (by omega) (by omega)

/-- Decimal notation of an integer, minus sign included
(`JSON.stringify` of an integral JS number). -/
def encInt (i : Int) : List Char :=
  if i < 0 then '-' :: encNat i.natAbs else encNat i.toNat

/-- Lowercase hexadecimal digit, as `JSON.stringify` emits in `\uXXXX`. -/
def hexDig (n : Nat) : Char :=
  if n < 10 then Char.ofNat (48 + n) else Char.ofNat (87 + n)

/-- How `JSON.stringify` renders one character inside a string literal:
`"` and `\` get a backslash escape, the control characters with short
escapes use them, the remaining control characters become `\u00XX`, and
every other character is emitted as itself. -/
def encChar (c : Char) : List Char :=
  if c = '"' then ['\\', '"']
  else if c = '\\' then ['\\', '\\']
  else if c.toNat = 8 then ['\\', 'b']
  else if c.toNat = 9 then ['\\', 't']
  else if c.toNat = 10 then ['\\', 'n']
  else if c.toNat = 12 then ['\\', 'f']
  else if c.toNat = 13 then ['\\', 'r']
  else if c.toNat < 32 then ['\\', 'u', '0', '0', hexDig (c.toNat / 16), hexDig (c.toNat % 16)]
  else [c]

/-- Body of a JSON string literal: each character escaped as needed. -/
def encStrBody : List Char → List Char
  | [] => []
  | c :: l => encChar c ++ encStrBody l

/-- A full JSON string literal, quotes included. -/
def encJString (s : String) : List Char :=
  '"' :: encStrBody s.data ++ ['"']

/-- Output of `JSON.stringify` on a boolean. -/
def encBool (b : Bool) : List Char :=
  if b then "true".data else "false".data

/-- Output of `JSON.stringify` on one Todo object.  Key order is the object-literal
order in `addTodo`: `id`, `text`, `completed`. -/
def encTodo (t : Todo) : List Char :=
  "\x7b\"id\":".data ++ encInt t.id ++ ",\"text\":".data ++ encJString t.text
    ++ ",\"completed\":".data ++ encBool t.completed ++ "\x7d".data

/-- Comma-separated encodings of the array elements. -/
def encSep : List Todo → List Char
  | [] => []
  | [t] => encTodo t
  | t :: ts => encTodo t ++ ',' :: encSep ts

/-- Output of `JSON.stringify` on the whole Todo array. -/
def encTodos (ts : List Todo) : List Char :=
  '[' :: encSep ts ++ [']']

/-- Result of `JSON.stringify(todos)` as a Lean `String`. -/
def stringifyTodos (ts : List Todo) : String :=
  String.mk (encTodos ts)

/-- Consume an expected literal sequence of characters, returning the
remaining input, or `none` on mismatch. -/
def expectChars : List Char → List Char → Option (List Char)
  | [], cs => some cs
  | _ :: _, [] => none
  | p :: ps, c :: cs => if c = p then expectChars ps cs else none

/-- Consume a maximal run of decimal digits, folding them onto `acc`. -/
def parseNatAcc (acc : Nat) : List Char → Nat × List Char
  | [] => (acc, [])
  | c :: rest =>
    if c.isDigit then parseNatAcc (10 * acc + (c.toNat - 48)) rest
    else (acc, c :: rest)

/-- Parse a non-negative decimal number (at least one digit required). -/
def parseNat (cs : List Char) : Option (Nat × List Char) :=
  match cs with
  | [] => none
  | c :: _ => if c.isDigit then some (parseNatAcc 0 cs) else none

/-- Parse a JSON integer: an optional minus sign followed by digits. -/
def parseInt (cs : List Char) : Option (Int × List Char) :=
  match cs with
  | [] => none
  | c :: rest =>
    if c = '-' then (parseNat rest).map fun p => (-(p.1 : Int), p.2)
    else (parseNat cs).map fun p => ((p.1 : Int), p.2)

/-- Value of one hexadecimal digit (either case), `none` otherwise. -/
def hexVal (c : Char) : Option Nat :=
  if 48 ≤ c.toNat ∧ c.toNat ≤ 57 then some (c.toNat - 48)
  else if 97 ≤ c.toNat ∧ c.toNat ≤ 102 then some (c.toNat - 87)
  else if 65 ≤ c.toNat ∧ c.toNat ≤ 70 then some (c.toNat - 55)
  else none

/-- Resolve a single-character escape (`\x` for `x` other than `u`). -/
def unescape (e : Char) : Option Char :=
  if e = '"' then some '"'
  else if e = '\\' then some '\\'
  else if e = '/' then some '/'
  else if e = 'b' then some (Char.ofNat 8)
  else if e = 't' then some (Char.ofNat 9)
  else if e = 'n' then some (Char.ofNat 10)
  else if e = 'f' then some (Char.ofNat 12)
  else if e = 'r' then some (Char.ofNat 13)
  else none

/-- Parse the body of a JSON string literal up to and including the closing
quote, resolving escapes; returns the decoded characters and the input
after the closing quote. -/
def parseStrBody : List Char → Option (List Char × List Char)
  | [] => none
  | c :: rest =>
    if c = '"' then some ([], rest)
    else if c = '\\' then
      match rest with
      | [] => none
      | e :: rest2 =>
        if e = 'u' then
          match rest2 with
          | h1 :: h2 :: h3 :: h4 :: rest3 =>
            match hexVal h1, hexVal h2, hexVal h3, hexVal h4, parseStrBody rest3 with
            | some a, some b, some v, some d, some (s, rem) =>
              some (Char.ofNat (((a * 16 + b) * 16 + v) * 16 + d) :: s, rem)
            | _, _, _, _, _ => none
          | _ => none
        else
          match unescape e, parseStrBody rest2 with
          | some d, some (s, rem) => some (d :: s, rem)
          | _, _ => none
    else
      match parseStrBody rest with
      | some (s, rem) => some (c :: s, rem)
      | none => none

/-- Parse a full JSON string literal, opening quote included. -/
def parseJString (cs : List Char) : Option (String × List Char) :=
  match cs with
  | [] => none
  | c :: rest =>
    if c = '"' then (parseStrBody rest).map fun p => (String.mk p.1, p.2)
    else none

/-- Parse a JSON boolean literal. -/
def parseBool (cs : List Char) : Option (Bool × List Char) :=
  match expectChars "true".data cs with
  | some rest => some (true, rest)
  | none =>
    match expectChars "false".data cs with
    | some rest => some (false, rest)
    | none => none

/-- Parse one `{"id":…,"text":…,"completed":…}` object. -/
def parseTodoObj (cs : List Char) : Option (Todo × List Char) := do
  let cs ← expectChars "\x7b\"id\":".data cs
  let (i, cs) ← parseInt cs
  let cs ← expectChars ",\"text\":".data cs
  let (txt, cs) ← parseJString cs
  let cs ← expectChars ",\"completed\":".data cs
  let (b, cs) ← parseBool cs
  let cs ← expectChars "\x7d".data cs
  pure ({ id := i, text := txt, completed := b }, cs)

/-- Parse a non-empty comma-separated object list followed by `]`.
`fuel` bounds the number of elements (the caller passes the input length,
which always suffices since every element occupies at least one character). -/
def parseTodosAux : Nat → List Char → Option (List Todo × List Char)
  | 0, _ => none
  | fuel + 1, cs =>
    match parseTodoObj cs with
    | none => none
    | some (t, rest) =>
      match rest with
      | [] => none
      | c :: rest2 =>
        if c = ',' then
          match parseTodosAux fuel rest2 with
          | some (ts, rem) => some (t :: ts, rem)
          | none => none
        else if c = ']' then some ([t], rest2)
        else none

/-- Models `JSON.parse` on the persisted schema: accepts exactly the array-of-Todo
grammar produced by `stringifyTodos` (requiring the whole input to be
consumed) and returns `none` where `JSON.parse` would throw on such input. -/
def parseTodos (s : String) : Option (List Todo) :=
  match s.data with
  | [] => none
  | c :: cs =>
    if c = '[' then
      match cs with
      | [] => none
      | c2 :: cs2 =>
        if c2 = ']' then (if cs2 = [] then some [] else none)
        else
          match parseTodosAux cs.length cs with
          | some (ts, []) => some ts
          | _ => none
    else none

/-! ## Persistence adapter

The component touches a single localStorage key, so the store is modelled
as the `Option String` content of that slot. -/

/-- Transcribes `saveTodos` from `TodoList.svelte`:
`localStorage.setItem(STORAGE_KEY, JSON.stringify(todos))` — the slot after
the write. -/
def saveTodos (todos : List Todo) : Option String :=
  some (stringifyTodos todos)

/-- Transcribes `loadTodos` from `TodoList.svelte`.  `storage` is the slot content
(`localStorage.getItem` result, `none` when the key is absent), `todos` the
collection before the call.  Returns the collection afterwards and whether
the `catch` branch ran (`console.error` diagnostic emitted).  JS truthiness
of `stored` makes the empty string fall through the `if (stored)` guard;
a `JSON.parse` throw is the parser returning `none`. -/
def loadTodos (storage : Option String) (todos : List Todo) : List Todo × Bool :=
  match storage with
  | none => (todos, false)
  | some stored =>
    if stored = "" then (todos, false)
    else
      match parseTodos stored with
      | some parsed => (parsed, false)
      | none => ([], true)

/-! ## Fallible storage writes

`saveTodos` has no `try/catch`, and neither do its callers.  To reason about
a throwing `localStorage.setItem` (quota exceeded, storage disabled), the
write is abstracted as a function into `Except ε Unit`; a JS exception is
the `Except.error` case, and its propagation through the caller is the
monadic bind.  The mutation bodies are otherwise the pure functions above. -/

/-- Version of `saveTodos` over a fallible `setItem`:
`localStorage.setItem(STORAGE_KEY, JSON.stringify(todos))` with no local
error handling of its own. -/
def saveTodosE {ε : Type} (setItem : String → String → Except ε Unit)
    (todos : List Todo) : Except ε Unit :=
  setItem STORAGE_KEY (stringifyTodos todos)

/-- Version of `addTodo` with the final `saveTodos()` call made over a fallible
`setItem`; returns the resulting component state. -/
def addTodoE {ε : Type} (setItem : String → String → Except ε Unit)
    (now : Int) (st : TState) : Except ε TState :=
  if jsTrim st.newTodoText ≠ "" then do
    let todos := st.todos ++ [{ id := now, text := jsTrim st.newTodoText, completed := false }]
    saveTodosE setItem todos
    pure { todos := todos, newTodoText := "" }
  else
    pure st

/-- Version of `toggleTodo` with its `saveTodos()` call made over a fallible
`setItem`. -/
def toggleTodoE {ε : Type} (setItem : String → String → Except ε Unit)
    (id : Int) (todos : List Todo) : Except ε (List Todo) := do
  saveTodosE setItem (toggleTodo id todos)
  pure (toggleTodo id todos)

/-- Version of `deleteTodo` with its `saveTodos()` call made over a fallible
`setItem`. -/
def deleteTodoE {ε : Type} (setItem : String → String → Except ε Unit)
    (id : Int) (todos : List Todo) : Except ε (List Todo) := do
  saveTodosE setItem (deleteTodo id todos)
  pure (deleteTodo id todos)

/-! ## Store operation properties -/

/-- Helper: `toggleTodo` leaves a list without the id untouched. -/
theorem toggleTodo_eq_of_no_match (id : Int) (l : List Todo)
    (h : ∀ u ∈ l, u.id ≠ id) : toggleTodo id l = l := by
  induction l with
  | nil => rfl
  | cons t ts ih =>
    have ht : t.id ≠ id := h t (by simp)
    have hts : toggleTodo id ts = ts := ih fun u hu => h u (by simp [hu])
    simp only [toggleTodo, List.map_cons] at hts ⊢
    rw [if_neg (by simp [ht]), hts]

/-- Helper: `deleteTodo` leaves a list without the id untouched. -/
theorem deleteTodo_eq_of_no_match (id : Int) (l : List Todo)
    (h : ∀ u ∈ l, u.id ≠ id) : deleteTodo id l = l := by
  unfold deleteTodo
  rw [List.filter_eq_self]
  intro u hu
  simp [h u hu]

/-- **C1.** When the trimmed input is non-empty, `addTodo` grows the
collection by exactly one element, keeps every existing element unchanged
and in place, and appends a Todo whose `text` is the trimmed input and
whose `completed` is `false`. -/
theorem addTodo_appends (now : Int) (st : TState) (h : jsTrim st.newTodoText ≠ "") :
    (addTodo now st).todos.length = st.todos.length + 1 ∧
    (addTodo now st).todos.take st.todos.length = st.todos ∧
    (addTodo now st).todos.getLast? =
      some { id := now, text := jsTrim st.newTodoText, completed := false } := by
  simp [addTodo, h]

/-- Witness for C1 at a concrete input. -/
theorem addTodo_appends_witness :
    jsTrim "hi " ≠ "" ∧
    ((addTodo 1 { todos := [], newTodoText := "hi " }).todos.length = 1 ∧
      (addTodo 1 { todos := [], newTodoText := "hi " }).todos.take 0 = [] ∧
      (addTodo 1 { todos := [], newTodoText := "hi " }).todos.getLast? =
        some { id := 1, text := jsTrim "hi ", completed := false }) :=
  ⟨by decide, addTodo_appends 1 { todos := [], newTodoText := "hi " } (by decide)⟩

/-- **C2.** For a collection in which the id picks out one element,
`toggleTodo id` flips exactly that element's `completed` flag, leaves its
`id` and `text` unchanged, and leaves every other element unchanged, in
order, with the collection length preserved. -/
theorem toggleTodo_flips_exactly_target (pre post : List Todo) (t : Todo) (id : Int)
    (ht : t.id = id) (hpre : ∀ u ∈ pre, u.id ≠ id) (hpost : ∀ u ∈ post, u.id ≠ id) :
    toggleTodo id (pre ++ t :: post) = pre ++ { t with completed := !t.completed } :: post ∧
    (toggleTodo id (pre ++ t :: post)).length = (pre ++ t :: post).length := by
  have h1 : toggleTodo id pre = pre := toggleTodo_eq_of_no_match id pre hpre
  have h2 : toggleTodo id post = post := toggleTodo_eq_of_no_match id post hpost
  have heq : toggleTodo id (pre ++ t :: post)
      = pre ++ { t with completed := !t.completed } :: post := by
    simp only [toggleTodo, List.map_append, List.map_cons] at h1 h2 ⊢
    rw [h1, h2, if_pos (by simp [ht])]
  exact ⟨heq, by rw [heq]; simp⟩

/-- Witness for C2 at a concrete input. -/
theorem toggleTodo_flips_exactly_target_witness :
    toggleTodo 2 [{ id := 1, text := "a", completed := false },
        { id := 2, text := "b", completed := false },
        { id := 3, text := "c", completed := true }]
      = [{ id := 1, text := "a", completed := false },
        { id := 2, text := "b", completed := true },
        { id := 3, text := "c", completed := true }] ∧
    (toggleTodo 2 [{ id := 1, text := "a", completed := false },
        { id := 2, text := "b", completed := false },
        { id := 3, text := "c", completed := true }]).length = 3 :=
  toggleTodo_flips_exactly_target [{ id := 1, text := "a", completed := false }]
    [{ id := 3, text := "c", completed := true }]
    { id := 2, text := "b", completed := false } 2 rfl (by decide) (by decide)

/-- **C3 counterexample.** In a collection where two elements carry the
same id, `deleteTodo` removes both of them: the size drops by 2, not by
exactly 1 as the claim states for every reachable collection. -/
theorem deleteTodo_duplicate_id_counterexample :
    deleteTodo 1 [{ id := 1, text := "a", completed := false },
        { id := 1, text := "b", completed := false }] = [] ∧
    (deleteTodo 1 [{ id := 1, text := "a", completed := false },
        { id := 1, text := "b", completed := false }]).length ≠
      ([{ id := 1, text := "a", completed := false },
        { id := 1, text := "b", completed := false }] : List Todo).length - 1 := by
  decide

/-- **C3 (amended).** `deleteTodo id` removes every element whose id
matches; hence when the id picks out exactly one element, the size drops by
exactly 1 and all other elements are unchanged and in order. -/
theorem deleteTodo_removes_unique_match (pre post : List Todo) (t : Todo) (id : Int)
    (ht : t.id = id) (hpre : ∀ u ∈ pre, u.id ≠ id) (hpost : ∀ u ∈ post, u.id ≠ id) :
    deleteTodo id (pre ++ t :: post) = pre ++ post ∧
    (deleteTodo id (pre ++ t :: post)).length = (pre ++ t :: post).length - 1 := by
  have h1 : deleteTodo id pre = pre := deleteTodo_eq_of_no_match id pre hpre
  have h2 : deleteTodo id post = post := deleteTodo_eq_of_no_match id post hpost
  have heq : deleteTodo id (pre ++ t :: post) = pre ++ post := by
    simp only [deleteTodo, List.filter_append, List.filter_cons] at h1 h2 ⊢
    rw [h1, h2, if_neg (by simp [ht])]
  refine ⟨heq, by rw [heq]; simp⟩

/-- Witness for C3's amended theorem at a concrete input. -/
theorem deleteTodo_removes_unique_match_witness :
    deleteTodo 2 [{ id := 1, text := "a", completed := false },
        { id := 2, text := "b", completed := false },
        { id := 3, text := "c", completed := true }]
      = [{ id := 1, text := "a", completed := false },
        { id := 3, text := "c", completed := true }] ∧
    (deleteTodo 2 [{ id := 1, text := "a", completed := false },
        { id := 2, text := "b", completed := false },
        { id := 3, text := "c", completed := true }]).length = 2 :=
  deleteTodo_removes_unique_match [{ id := 1, text := "a", completed := false }]
    [{ id := 3, text := "c", completed := true }]
    { id := 2, text := "b", completed := false } 2 rfl (by decide) (by decide)

/-- **C7.** When the trimmed input is empty, `addTodo` is a no-op: the
whole component state (collection included) is unchanged and no Todo is
created. -/
theorem addTodo_whitespace_noop (now : Int) (st : TState)
    (h : jsTrim st.newTodoText = "") : addTodo now st = st := by
  simp [addTodo, h]

/-- Witness for C7 at the inputs `""` and `"   "`. -/
theorem addTodo_whitespace_noop_witness :
    jsTrim "" = "" ∧ jsTrim "   " = "" ∧
    addTodo 7 { todos := [{ id := 1, text := "x", completed := false }], newTodoText := "   " }
      = { todos := [{ id := 1, text := "x", completed := false }], newTodoText := "   " } ∧
    addTodo 7 { todos := [], newTodoText := "" } = { todos := [], newTodoText := "" } :=
  ⟨by decide, by decide,
    addTodo_whitespace_noop 7 _ (by decide),
    addTodo_whitespace_noop 7 _ (by decide)⟩

/-- **C8.** `toggleTodo` with an id that occurs nowhere in the collection
leaves the collection unchanged — a silent no-op. -/
theorem toggleTodo_absent_id_noop (id : Int) (todos : List Todo)
    (h : ∀ t ∈ todos, t.id ≠ id) : toggleTodo id todos = todos :=
  toggleTodo_eq_of_no_match id todos h

/-- Witness for C8 at a concrete input. -/
theorem toggleTodo_absent_id_noop_witness :
    (∀ t ∈ [({ id := 1, text := "a", completed := false } : Todo)], t.id ≠ 5) ∧
    toggleTodo 5 [{ id := 1, text := "a", completed := false }]
      = [{ id := 1, text := "a", completed := false }] :=
  ⟨by decide, toggleTodo_absent_id_noop 5 _ (by decide)⟩

/-- **C10.** Toggling the same id twice restores the collection exactly,
whether or not the id is present. -/
theorem toggleTodo_involutive (id : Int) (todos : List Todo) :
    toggleTodo id (toggleTodo id todos) = todos := by
  induction todos with
  | nil => rfl
  | cons t ts ih =>
    simp only [toggleTodo, List.map_cons] at ih ⊢
    by_cases h : t.id = id
    · rw [if_pos (by simp [h]), if_pos (by simp [h]), ih]
      simp
    · rw [if_neg (by simp [h]), if_neg (by simp [h]), ih]

/-! ## Presentation-layer submit behaviour -/

/-- **C6 counterexample.** Submitting a whitespace-only value via the
Enter key does not clear the input field: `newTodoText = ''` sits inside
`if (newTodoText.trim())`, so the whitespace text is retained. -/
theorem whitespace_submit_keeps_input :
    (handleKeydown "Enter" 0 { todos := [], newTodoText := "   " }).newTodoText = "   " ∧
    ("   " : String) ≠ "" := by
  decide

/-- **C6 (amended).** Submitting (button click runs `addTodo` directly;
Enter runs it via `handleKeydown`, other keys do nothing) calls add with
the current input value; the input field is cleared exactly when the
trimmed value is non-empty (a Todo was accepted), and on a
whitespace-only submission the whole state — input field included — is
left unchanged. -/
theorem submit_clears_input_iff_accepted (now : Int) (st : TState) :
    handleKeydown "Enter" now st = addTodo now st ∧
    (∀ k : String, k ≠ "Enter" → handleKeydown k now st = st) ∧
    (jsTrim st.newTodoText ≠ "" → (addTodo now st).newTodoText = "") ∧
    (jsTrim st.newTodoText = "" → addTodo now st = st) := by
  refine ⟨by simp [handleKeydown], fun k hk => by simp [handleKeydown, hk], ?_, ?_⟩
  · intro h
    simp [addTodo, h]
  · intro h
    simp [addTodo, h]

/-- Witness for C6's amended theorem at concrete inputs. -/
theorem submit_clears_input_iff_accepted_witness :
    (addTodo 2 { todos := [], newTodoText := "a " }).newTodoText = "" ∧
    addTodo 2 { todos := [], newTodoText := "  " } = { todos := [], newTodoText := "  " } ∧
    handleKeydown "Enter" 2 { todos := [], newTodoText := "a " }
      = addTodo 2 { todos := [], newTodoText := "a " } :=
  ⟨(submit_clears_input_iff_accepted 2 { todos := [], newTodoText := "a " }).2.2.1 (by decide),
    (submit_clears_input_iff_accepted 2 { todos := [], newTodoText := "  " }).2.2.2 (by decide),
    (submit_clears_input_iff_accepted 2 { todos := [], newTodoText := "a " }).1⟩

/-! ## Storage write failure propagation -/

/-- **C9.** `saveTodos` has no error handling: a throwing `setItem` makes
`saveTodosE` itself propagate the error, and therefore every mutation that
reaches the write (`toggleTodo`/`deleteTodo` always; `addTodo` whenever it
accepts the input) propagates it too. -/
theorem save_failure_propagates {ε : Type} (e : ε)
    (setItem : String → String → Except ε Unit)
    (hfail : ∀ k v, setItem k v = Except.error e) :
    (∀ todos, saveTodosE setItem todos = Except.error e) ∧
    (∀ id todos, toggleTodoE setItem id todos = Except.error e) ∧
    (∀ id todos, deleteTodoE setItem id todos = Except.error e) ∧
    (∀ now st, jsTrim st.newTodoText ≠ "" → addTodoE setItem now st = Except.error e) := by
  refine ⟨fun todos => hfail _ _, fun id todos => ?_, fun id todos => ?_, fun now st h => ?_⟩
  · simp [toggleTodoE, saveTodosE, hfail, Except.bind]
  · simp [deleteTodoE, saveTodosE, hfail, Except.bind]
  · simp [addTodoE, saveTodosE, h, hfail, Except.bind]

/-- Witness for C9 with an always-failing storage write. -/
theorem save_failure_propagates_witness :
    saveTodosE (fun _ _ => Except.error 0) [] = Except.error 0 ∧
    toggleTodoE (fun _ _ => Except.error 0) 1 [] = Except.error 0 ∧
    deleteTodoE (fun _ _ => Except.error 0) 1 [] = Except.error 0 ∧
    addTodoE (fun _ _ => Except.error 0) 1 { todos := [], newTodoText := "x" }
      = Except.error 0 :=
  ⟨(save_failure_propagates 0 _ fun _ _ => rfl).1 [],
    (save_failure_propagates 0 _ fun _ _ => rfl).2.1 1 [],
    (save_failure_propagates 0 _ fun _ _ => rfl).2.2.1 1 [],
    (save_failure_propagates 0 _ fun _ _ => rfl).2.2.2 1 { todos := [], newTodoText := "x" }
      (by decide)⟩

/-! ## Round trip of the JSON model: numbers -/

/-- The character `encNat` emits for one digit is a digit character whose
code is `48 + n`. -/
theorem digit_char_spec : ∀ n < 10,
    (Char.ofNat (48 + n)).isDigit = true ∧ (Char.ofNat (48 + n)).toNat = 48 + n := by
  decide

/-- Lemma: `parseNatAcc` stops in front of a non-digit (or at the end). -/
theorem parseNatAcc_stop (acc : Nat) (cs : List Char)
    (h : ∀ c ∈ cs.head?, c.isDigit = false) : parseNatAcc acc cs = (acc, cs) := by
  cases cs with
  | nil => rfl
  | cons c l => simp [parseNatAcc, h c (by simp)]

/-- Feeding the digits of `n` to `parseNatAcc` shifts the accumulator and
adds `n`. -/
theorem parseNatAcc_encNat (n : Nat) : ∀ acc rest : _,
    parseNatAcc acc (encNat n ++ rest)
      = parseNatAcc (acc * 10 ^ (encNat n).length + n) rest := by
  induction n using Nat.strong_induction_on with
  | _ n ih =>
    intro acc rest
    by_cases h : n < 10
    · obtain ⟨hdig, hval⟩ := digit_char_spec n h
      rw [encNat]
      simp only [h, dite_true, List.singleton_append, List.length_singleton]
      rw [parseNatAcc]
      simp only [hdig, if_true]
      congr 1
      rw [hval]
      omega
    · have hrec : encNat n = encNat (n / 10) ++ [Char.ofNat (48 + n % 10)] := by
        rw [encNat]
        simp [h]
      obtain ⟨hdig, hval⟩ := digit_char_spec (n % 10) (Nat.mod_lt n (by omega))
      rw [hrec, List.append_assoc, ih (n / 10) (Nat.div_lt_self (by omega) (by omega)),
        List.singleton_append, parseNatAcc]
      simp only [hdig, if_true]
      rw [List.length_append, List.length_singleton]
      congr 1
      rw [hval, pow_succ, ← mul_assoc]
      omega

/-- The digit list of `n` starts with a digit character. -/
theorem encNat_head (n : Nat) : ∃ c l, encNat n = c :: l ∧ c.isDigit = true := by
  induction n using Nat.strong_induction_on with
  | _ n ih =>
    by_cases h : n < 10
    · refine ⟨Char.ofNat (48 + n), [], ?_, (digit_char_spec n h).1⟩
      rw [encNat]
      simp [h]
    · obtain ⟨c, l, hc, hd⟩ := ih (n / 10) (Nat.div_lt_self (by omega) (by omega))
      refine ⟨c, l ++ [Char.ofNat (48 + n % 10)], ?_, hd⟩
      rw [encNat]
      simp [h, hc]

/-- Parsing the decimal digits of `n` yields `n` when the following input
does not begin with a digit. -/
theorem parseNat_encNat (n : Nat) (rest : List Char)
    (h : ∀ c ∈ rest.head?, c.isDigit = false) :
    parseNat (encNat n ++ rest) = some (n, rest) := by
  obtain ⟨c, l, hc, hd⟩ := encNat_head n
  rw [hc, List.cons_append, parseNat]
  simp only [hd, if_true]
  rw [← List.cons_append, ← hc, parseNatAcc_encNat, parseNatAcc_stop _ _ h]
  simp

/-- Parsing the decimal notation of an integer yields it back when the
following input does not begin with a digit. -/
theorem parseInt_encInt (i : Int) (rest : List Char)
    (h : ∀ c ∈ rest.head?, c.isDigit = false) :
    parseInt (encInt i ++ rest) = some (i, rest) := by
  by_cases hi : i < 0
  · rw [encInt, if_pos hi, List.cons_append, parseInt]
    rw [if_pos rfl, parseNat_encNat _ _ h]
    simp only [Option.map_some', Option.some.injEq, Prod.mk.injEq]
    exact ⟨by omega, trivial⟩
  · rw [encInt, if_neg hi]
    obtain ⟨c, l, hc, hd⟩ := encNat_head i.toNat
    have hcm : c ≠ '-' := by
      intro he
      rw [he] at hd
      exact absurd hd (by decide)
    rw [hc, List.cons_append, parseInt]
    rw [if_neg hcm, ← List.cons_append, ← hc, parseNat_encNat _ _ h]
    simp only [Option.map_some', Option.some.injEq, Prod.mk.injEq]
    exact ⟨by omega, trivial⟩

/-! ## Round trip of the JSON model: strings -/

/-- Lemma: `hexDig` and `hexVal` are inverse on hex digit values. -/
theorem hexVal_hexDig : ∀ m < 16, hexVal (hexDig m) = some m := by
  decide

/-- Decoding a string-literal body undoes the escaping applied by
`encStrBody`, stopping at the closing quote. -/
theorem parseStrBody_encStrBody (l : List Char) : ∀ rest : List Char,
    parseStrBody (encStrBody l ++ '"' :: rest) = some (l, rest) := by
  induction l with
  | nil =>
    intro rest
    have he : encStrBody [] ++ '"' :: rest = '"' :: rest := by simp [encStrBody]
    rw [he, parseStrBody.eq_def]
    simp
  | cons c l ih =>
    intro rest
    by_cases hq : c = '"'
    · subst hq
      have he : encStrBody ('"' :: l) ++ '"' :: rest
          = '\\' :: '"' :: (encStrBody l ++ '"' :: rest) := by
        simp [encStrBody, encChar]
      rw [he, parseStrBody.eq_def]
      simp [unescape, ih rest]
    · by_cases hb : c = '\\'
      · subst hb
        have he : encStrBody ('\\' :: l) ++ '"' :: rest
            = '\\' :: '\\' :: (encStrBody l ++ '"' :: rest) := by
          simp [encStrBody, encChar]
        rw [he, parseStrBody.eq_def]
        simp [unescape, ih rest]
      · by_cases h8 : c.toNat = 8
        · have hc : Char.ofNat 8 = c := by rw [← h8]; exact Char.ofNat_toNat c
          have he : encStrBody (c :: l) ++ '"' :: rest
              = '\\' :: 'b' :: (encStrBody l ++ '"' :: rest) := by
            simp [encStrBody, encChar, hq, hb, h8]
          rw [he, parseStrBody.eq_def]
          simp [unescape, ih rest]
          exact hc
        · by_cases h9 : c.toNat = 9
          · have hc : Char.ofNat 9 = c := by rw [← h9]; exact Char.ofNat_toNat c
            have he : encStrBody (c :: l) ++ '"' :: rest
                = '\\' :: 't' :: (encStrBody l ++ '"' :: rest) := by
              simp [encStrBody, encChar, hq, hb, h8, h9]
            rw [he, parseStrBody.eq_def]
            simp [unescape, ih rest]
            exact hc
          · by_cases h10 : c.toNat = 10
            · have hc : Char.ofNat 10 = c := by rw [← h10]; exact Char.ofNat_toNat c
              have he : encStrBody (c :: l) ++ '"' :: rest
                  = '\\' :: 'n' :: (encStrBody l ++ '"' :: rest) := by
                simp [encStrBody, encChar, hq, hb, h8, h9, h10]
              rw [he, parseStrBody.eq_def]
              simp [unescape, ih rest]
              exact hc
            · by_cases h12 : c.toNat = 12
              · have hc : Char.ofNat 12 = c := by rw [← h12]; exact Char.ofNat_toNat c
                have he : encStrBody (c :: l) ++ '"' :: rest
                    = '\\' :: 'f' :: (encStrBody l ++ '"' :: rest) := by
                  simp [encStrBody, encChar, hq, hb, h8, h9, h10, h12]
                rw [he, parseStrBody.eq_def]
                simp [unescape, ih rest]
                exact hc
              · by_cases h13 : c.toNat = 13
                · have hc : Char.ofNat 13 = c := by rw [← h13]; exact Char.ofNat_toNat c
                  have he : encStrBody (c :: l) ++ '"' :: rest
                      = '\\' :: 'r' :: (encStrBody l ++ '"' :: rest) := by
                    simp [encStrBody, encChar, hq, hb, h8, h9, h10, h12, h13]
                  rw [he, parseStrBody.eq_def]
                  simp [unescape, ih rest]
                  exact hc
                · by_cases h32 : c.toNat < 32
                  · have hdiv : hexVal (hexDig (c.toNat / 16)) = some (c.toNat / 16) :=
                      hexVal_hexDig _ (by omega)
                    have hmod : hexVal (hexDig (c.toNat % 16)) = some (c.toNat % 16) :=
                      hexVal_hexDig _ (by omega)
                    have h0 : hexVal '0' = some 0 := by decide
                    have harith : c.toNat / 16 * 16 + c.toNat % 16 = c.toNat := by omega
                    have hc : Char.ofNat (c.toNat / 16 * 16 + c.toNat % 16) = c := by
                      rw [harith]; exact Char.ofNat_toNat c
                    have he : encStrBody (c :: l) ++ '"' :: rest
                        = '\\' :: 'u' :: '0' :: '0' :: hexDig (c.toNat / 16)
                          :: hexDig (c.toNat % 16) :: (encStrBody l ++ '"' :: rest) := by
                      simp [encStrBody, encChar, hq, hb, h8, h9, h10, h12, h13, h32]
                    rw [he, parseStrBody.eq_def]
                    simp [h0, hdiv, hmod, ih rest, hc]
                  · have he : encStrBody (c :: l) ++ '"' :: rest
                        = c :: (encStrBody l ++ '"' :: rest) := by
                      simp [encStrBody, encChar, hq, hb, h8, h9, h10, h12, h13, h32]
                    rw [he, parseStrBody.eq_def]
                    simp [hq, hb, ih rest]

/-- Parsing a full string literal returns the original string. -/
theorem parseJString_encJString (s : String) (rest : List Char) :
    parseJString (encJString s ++ rest) = some (s, rest) := by
  have h : encJString s ++ rest = '"' :: (encStrBody s.data ++ '"' :: rest) := by
    simp [encJString]
  rw [h, parseJString]
  rw [if_pos rfl, parseStrBody_encStrBody]
  rfl

/-! ## Round trip of the JSON model: booleans, objects, arrays -/

/-- Lemma: `expectChars` consumes exactly the expected leading characters. -/
theorem expectChars_append (ps : List Char) : ∀ rest : List Char,
    expectChars ps (ps ++ rest) = some rest := by
  induction ps with
  | nil => intro rest; rfl
  | cons p ps ih => intro rest; simp [expectChars, ih rest]

/-- Parsing a boolean literal returns the encoded boolean. -/
theorem parseBool_encBool (b : Bool) (rest : List Char) :
    parseBool (encBool b ++ rest) = some (b, rest) := by
  cases b
  · have hne : expectChars "true".data ("false".data ++ rest) = none := by
      have h1 : "true".data = 't' :: "rue".data := rfl
      have h2 : "false".data ++ rest = 'f' :: ("alse".data ++ rest) := rfl
      rw [h1, h2, expectChars]
      simp
    rw [encBool, if_neg (by simp), parseBool, hne, expectChars_append]
  · rw [encBool, if_pos rfl, parseBool, expectChars_append]

/-- Parsing one encoded Todo object returns that Todo. -/
theorem parseTodoObj_encTodo (t : Todo) (rest : List Char) :
    parseTodoObj (encTodo t ++ rest) = some (t, rest) := by
  have h1 : encTodo t ++ rest
      = "\x7b\"id\":".data ++ (encInt t.id ++ (",\"text\":".data ++ (encJString t.text
        ++ (",\"completed\":".data ++ (encBool t.completed ++ ("\x7d".data ++ rest)))))) := by
    simp [encTodo]
  have hcomma : ∀ c ∈ ((",\"text\":".data ++ (encJString t.text
      ++ (",\"completed\":".data ++ (encBool t.completed
        ++ ("\x7d".data ++ rest))))).head? : Option Char), c.isDigit = false := by
    intro c hcm
    have : c = ',' := by
      have hd : ",\"text\":".data ++ (encJString t.text ++ (",\"completed\":".data
          ++ (encBool t.completed ++ ("\x7d".data ++ rest))))
          = ',' :: ("\"text\":".data ++ (encJString t.text ++ (",\"completed\":".data
            ++ (encBool t.completed ++ ("\x7d".data ++ rest))))) := rfl
      rw [hd] at hcm
      have h2 : ',' = c := by simpa using hcm
      exact h2.symm
    rw [this]
    decide
  rw [h1, parseTodoObj]
  simp only [Option.bind_eq_bind, Option.some_bind, expectChars_append]
  rw [parseInt_encInt _ _ hcomma]
  simp only [Option.bind_eq_bind, Option.some_bind, expectChars_append,
    parseJString_encJString, parseBool_encBool, Option.pure_def]

/-- An encoded Todo object starts with an opening brace. -/
theorem encTodo_head (t : Todo) : ∃ l, encTodo t = '{' :: l :=
  ⟨"\"id\":".data ++ (encInt t.id ++ (",\"text\":".data ++ (encJString t.text
    ++ (",\"completed\":".data ++ (encBool t.completed ++ "\x7d".data))))), by simp [encTodo]⟩

/-- The element count never exceeds the separated encoding's length plus
one (each element encoding is non-empty is not even needed: separators
alone account for the bound). -/
theorem encSep_length_bound : ∀ ts : List Todo, ts.length ≤ (encSep ts).length + 1 := by
  intro ts
  induction ts with
  | nil => simp [encSep]
  | cons t ts ih =>
    cases ts with
    | nil => simp [encSep]
    | cons t2 ts2 =>
      have hs : encSep (t :: t2 :: ts2) = encTodo t ++ ',' :: encSep (t2 :: ts2) := rfl
      rw [hs]
      simp only [List.length_cons, List.length_append] at ih ⊢
      omega

/-- Parsing the comma-separated encoding of a non-empty list consumes it
up to the closing bracket, given enough fuel. -/
theorem parseTodosAux_encSep : ∀ ts : List Todo, ts ≠ [] → ∀ (fuel : Nat) (rest : List Char),
    ts.length ≤ fuel → parseTodosAux fuel (encSep ts ++ ']' :: rest) = some (ts, rest) := by
  intro ts
  induction ts with
  | nil => intro h; exact absurd rfl h
  | cons t ts ih =>
    intro _ fuel rest hfuel
    cases ts with
    | nil =>
      obtain ⟨f, rfl⟩ : ∃ f, fuel = f + 1 := ⟨fuel - 1, by simp at hfuel; omega⟩
      rw [show encSep [t] = encTodo t from rfl, parseTodosAux, parseTodoObj_encTodo]
      simp
    | cons t2 ts2 =>
      obtain ⟨f, rfl⟩ : ∃ f, fuel = f + 1 := ⟨fuel - 1, by simp at hfuel; omega⟩
      have hs : encSep (t :: t2 :: ts2) ++ ']' :: rest
          = encTodo t ++ (',' :: (encSep (t2 :: ts2) ++ ']' :: rest)) := by
        rw [show encSep (t :: t2 :: ts2) = encTodo t ++ ',' :: encSep (t2 :: ts2) from rfl]
        simp
      rw [hs, parseTodosAux, parseTodoObj_encTodo]
      have hrec : parseTodosAux f (encSep (t2 :: ts2) ++ ']' :: rest) = some (t2 :: ts2, rest) :=
        ih (by simp) f rest (by simp at hfuel ⊢; omega)
      simp [hrec]

/-- Parsing the full serialized array returns the original collection:
`JSON.parse ∘ JSON.stringify` is the identity on Todo collections. -/
theorem parseTodos_stringifyTodos (ts : List Todo) : parseTodos (stringifyTodos ts) = some ts := by
  cases ts with
  | nil => rfl
  | cons t ts2 =>
    obtain ⟨l0, hl0⟩ := encTodo_head t
    have hsep : ∃ l1, encSep (t :: ts2) = '{' :: l1 := by
      cases ts2 with
      | nil => exact ⟨l0, hl0⟩
      | cons a b =>
        refine ⟨l0 ++ ',' :: encSep (a :: b), ?_⟩
        rw [show encSep (t :: a :: b) = encTodo t ++ ',' :: encSep (a :: b) from rfl, hl0]
        rfl
    obtain ⟨l1, hl1⟩ := hsep
    have hdata : (stringifyTodos (t :: ts2)).data = '[' :: (encSep (t :: ts2) ++ [']']) := rfl
    have haux : parseTodosAux (encSep (t :: ts2) ++ [']']).length (encSep (t :: ts2) ++ [']'])
        = some (t :: ts2, []) := by
      have hb := encSep_length_bound (t :: ts2)
      exact parseTodosAux_encSep (t :: ts2) (by simp) _ []
        (by rw [List.length_append]; simpa using hb)
    unfold parseTodos
    rw [hdata]
    simp only [if_pos rfl]
    rw [hl1, List.cons_append]
    simp only [if_neg (by decide : ¬('{' : Char) = ']')]
    rw [← List.cons_append, ← hl1, haux]
    simp

/-! ## Persistence claims -/

/-- **C4.** Saving any collection and then loading yields exactly that
collection back (and the load takes the success path: no diagnostic),
whatever the in-memory collection held before the load. -/
theorem save_load_roundtrip (C prior : List Todo) :
    loadTodos (saveTodos C) prior = (C, false) := by
  have hne : stringifyTodos C ≠ "" := by
    intro h
    have hd : '[' :: (encSep C ++ [']']) = ([] : List Char) := congrArg String.data h
    exact List.noConfusion hd
  simp only [loadTodos, saveTodos]
  rw [if_neg hne, parseTodos_stringifyTodos]

/-- **C5.** With the storage key absent, `loadTodos` leaves the initial
empty collection in place; with a stored value the parser rejects (where
`JSON.parse` would throw), the failure is handled locally: the result is
the empty collection with the diagnostic emitted, and — `loadTodos` being
a total function whose parser models the throw as `none` — nothing
propagates. -/
theorem loadTodos_error_handling :
    (loadTodos none []).1 = [] ∧
    (∀ s : String, s ≠ "" → parseTodos s = none → loadTodos (some s) [] = ([], true)) := by
  refine ⟨rfl, fun s hs hp => ?_⟩
  simp only [loadTodos]
  rw [if_neg hs, hp]

/-- Witness for C5 at the stored value `"not json"`. -/
theorem loadTodos_error_handling_witness :
    ("not json" : String) ≠ "" ∧ parseTodos "not json" = none ∧
    loadTodos (some "not json") [] = ([], true) :=
  ⟨by decide, by decide, loadTodos_error_handling.2 "not json" (by decide) (by decide)⟩
